import Mathlib

/-!
Verification of the audial output-validation and repair pipeline.

The source is translated into Lean over `List Char` (strings are modelled as
character lists; Lean string literals enter through `String.data`).  JavaScript
regular expressions are translated into deterministic scanners that realise the
same match semantics on the inputs the checks receive.  Numeric effect
magnitudes (JS floats holding short decimal literals) are modelled as exact
rationals; on such literals the JS float comparison agrees with the rational
one.
-/

set_option maxRecDepth 40000

namespace Audial

/-- JS whitespace characters relevant to `trim` and `\s` (ASCII range). -/
def wsChar (c : Char) : Bool :=
  c = ' ' || c = '\t' || c = '\n' || c = '\r' || c = Char.ofNat 11 || c = Char.ofNat 12

def dquote : Char := Char.ofNat 34

def squote : Char := Char.ofNat 39

def bquote : Char := Char.ofNat 96

def lbrace : Char := Char.ofNat 123

def rbrace : Char := Char.ofNat 125

def trimL (l : List Char) : List Char := l.dropWhile wsChar

def trimR : List Char → List Char
  | [] => []
  | c :: r => if (trimR r).isEmpty && wsChar c then [] else c :: trimR r

/-- JS `String.prototype.trim` on a character list. -/
def trimStr (l : List Char) : List Char := trimL (trimR l)

/-- JS `split("\n")`. -/
def splitNL : List Char → List (List Char)
  | [] => [[]]
  | '\n' :: r => [] :: splitNL r
  | c :: r =>
    match splitNL r with
    | [] => [[c]]
    | h :: t => (c :: h) :: t

/-- JS `join("\n")`. -/
def joinNL : List (List Char) → List Char
  | [] => []
  | [l] => l
  | l :: r => l ++ '\n' :: joinNL r

/-- Does some suffix of `l` satisfy `p`?  (regex `test` over all start positions). -/
def existsAt (p : List Char → Bool) : List Char → Bool
  | [] => false
  | c :: r => p (c :: r) || existsAt p r

/-- Strip a literal pattern from the front, if present. -/
def stripPfx (pat l : List Char) : Option (List Char) :=
  if pat = l.take pat.length then some (l.drop pat.length) else none

/-- Case-insensitive variant (`pat` is given in lower case). -/
def stripPfxCI (pat l : List Char) : Option (List Char) :=
  if pat = (l.take pat.length).map Char.toLower then some (l.drop pat.length) else none

def containsSub (pat l : List Char) : Bool :=
  existsAt (fun s => (stripPfx pat s).isSome) l

def countChar (c : Char) (l : List Char) : Nat := l.count c

def digitsToNat (ds : List Char) : Nat :=
  ds.foldl (fun a c => 10 * a + (c.toNat - 48)) 0

def natStr (n : Nat) : List Char := (Nat.repr n).data

/-- Fueled left-to-right non-overlapping scan: at each position try the matcher;
    on success record the payload and resume after the match, otherwise advance
    one character (JS global-regex iteration). -/
def scanP {α : Type} (t : List Char → Option (α × List Char)) : Nat → List Char → List α
  | 0, _ => []
  | _ + 1, [] => []
  | fuel + 1, c :: r =>
    match t (c :: r) with
    | some (a, rem) => a :: scanP t fuel rem
    | none => scanP t fuel r

/-! ## src/lib/parseOutput.ts -/

/-- One escape-replacement pass: rewrite each occurrence of backslash-`c` where
    `tbl c = some u` into `u`, scanning left to right without overlap
    (JS `replace(/\\X/g, ...)`). -/
def repEsc (tbl : Char → Option Char) : List Char → List Char
  | [] => []
  | '\\' :: c :: r =>
    match tbl c with
    | some u => u :: repEsc tbl r
    | none => '\\' :: repEsc tbl (c :: r)
  | c :: r => c :: repEsc tbl r

def escTbl1 (c : Char) : Option Char := if c = dquote then some dquote else none

def escTbl2 (c : Char) : Option Char := if c = squote then some squote else none

def escTbl3 (c : Char) : Option Char :=
  if c = 'n' then some '\n'
  else if c = 't' then some '\t'
  else if c = 'r' then some '\r' else none

/-- `cleanCode` of parseOutput.ts: un-escape quotes, then resolve `\n`, `\t`, `\r`. -/
def cleanCode (code : List Char) : List Char :=
  repEsc escTbl3 (repEsc escTbl2 (repEsc escTbl1 code))

def fence : List Char := "```".data

/-- Optional language tag after an opening fence (`javascript|js|strudel`). -/
def stripTag (l : List Char) : List Char :=
  match stripPfx ("javascript".data) l with
  | some r => r
  | none =>
    match stripPfx ("js".data) l with
    | some r => r
    | none =>
      match stripPfx ("strudel".data) l with
      | some r => r
      | none => l

def stripNL : List Char → List Char
  | '\n' :: r => r
  | l => l

/-- Split at the first closing fence: lazy `([\s\S]*?)` + three backticks. -/
def findClose : List Char → Option (List Char × List Char)
  | [] => none
  | c :: r =>
    if fence = (c :: r).take 3 then some ([], (c :: r).drop 3)
    else
      match findClose r with
      | some (a, b) => some (c :: a, b)
      | none => none

/-- Match one fenced code block at this exact position; returns the captured
    inner text and the remaining input after the closing fence. -/
def tryOpen (l : List Char) : Option (List Char × List Char) :=
  match stripPfx fence l with
  | none => none
  | some r0 => findClose (stripNL (stripTag r0))

/-- All fenced-block captures, in order (regex
    three-backticks `(?:javascript|js|strudel)?\n?([\s\S]*?)` three-backticks, global). -/
def findBlocks (l : List Char) : List (List Char) :=
  scanP tryOpen l.length l

def firstCodeLine (code : List Char) : Option (List Char) :=
  ((splitNL code).map trimStr).find? (fun t => !t.isEmpty && !(("//".data).isPrefixOf t))

/-- `validateCodeContent` of parseOutput.ts: returns the error, or `none` when valid. -/
def validateCodeContent (code : List Char) : Option (List Char) :=
  match firstCodeLine code with
  | none => some ("code contains no executable statements".data)
  | some fcl =>
    if !(("setcpm(".data).isPrefixOf fcl) && !(("setcpm (".data).isPrefixOf fcl) then
      some (("code must start with setcpm(...), found: ".data) ++ fcl.take 30 ++ ("...".data))
    else if !containsSub ("$:".data) code then
      some ("code must contain at least one voice assignment ($:)".data)
    else
      let op := countChar '(' code
      let cp := countChar ')' code
      if op ≠ cp then
        some (("unbalanced parentheses: ".data) ++ natStr op ++ (" open, ".data) ++
          natStr cp ++ (" close".data))
      else
        let ob := countChar '[' code
        let cb := countChar ']' code
        if ob ≠ cb then
          some (("unbalanced brackets: ".data) ++ natStr ob ++ (" open, ".data) ++
            natStr cb ++ (" close".data))
        else
          let oc := countChar lbrace code
          let cc := countChar rbrace code
          if oc ≠ cc then
            some (("unbalanced braces: ".data) ++ natStr oc ++ (" open, ".data) ++
              natStr cc ++ (" close".data))
          else none

/-- After a call name: `\s*` then a literal `(`. -/
def callAfter (r : List Char) : Bool :=
  match r.dropWhile wsChar with
  | c :: _ => c = '('
  | [] => false

def hasCall (name code : List Char) : Bool :=
  existsAt (fun s =>
    match stripPfx name s with
    | some r => callAfter r
    | none => false) code

def hasCallCI (name code : List Char) : Bool :=
  existsAt (fun s =>
    match stripPfxCI name s with
    | some r => callAfter r
    | none => false) code

/-- `looksLikeStrudelCode`: at least two of the five marker patterns match. -/
def looksLikeStrudelCode (text : List Char) : Bool :=
  let pats : List Bool :=
    [hasCallCI ("setcpm".data) text,
     containsSub ("$:".data) text,
     hasCall ("note".data) text,
     hasCall ("s".data) text,
     hasCall (".gain".data) text]
  decide (2 ≤ (pats.filter (fun b => b)).length)

structure ParseResult where
  success : Bool
  code : Option (List Char)
  error : Option (List Char)
  rawResponse : Option (List Char)
deriving DecidableEq

def mkFail (e raw : List Char) : ParseResult :=
  { success := false, code := none, error := some e, rawResponse := some raw }

def mkOk (c : List Char) : ParseResult :=
  { success := true, code := some c, error := none, rawResponse := none }

/-- Shared success tail of `parseClaudeOutput`: content-validate the candidate
    artifact, then clean it (both the fenced and the heuristic branch of the
    source end in exactly this code). -/
def finishArtifact (raw code : List Char) : ParseResult :=
  match validateCodeContent code with
  | some e => mkFail e raw
  | none => mkOk (cleanCode code)

/-- `parseClaudeOutput` of parseOutput.ts. -/
def parseClaudeOutput (response : List Char) : ParseResult :=
  if (trimStr response).isEmpty then mkFail ("empty response".data) response
  else
    let trimmed := trimStr response
    let ms := findBlocks trimmed
    if ms.length = 0 then
      if looksLikeStrudelCode trimmed then finishArtifact response trimmed
      else mkFail ("no code block found in response".data) response
    else if ms.length > 1 then
      mkFail (("found ".data) ++ natStr ms.length ++ (" code blocks, expected exactly 1".data))
        response
    else
      let code := trimStr (ms.headD [])
      if code.isEmpty then mkFail ("code block is empty".data) response
      else finishArtifact response code

/-- `isCodeUnchanged` of parseOutput.ts. -/
def lineNorm (code : List Char) : List Char :=
  joinNL (((splitNL code).map trimStr).filter (fun l => !l.isEmpty))

def isCodeUnchanged (oldCode newCode : List Char) : Bool :=
  decide (lineNorm oldCode = lineNorm newCode)

/-! ## src/lib/validateOutput.ts -/

/-- Digits printed after the decimal point of a rational (long division). -/
def ratDigits : Nat → Nat → Nat → List Char
  | 0, _, _ => []
  | _ + 1, 0, _ => []
  | fuel + 1, num, den =>
    Char.ofNat (48 + (num * 10) / den) :: ratDigits fuel ((num * 10) % den) den

/-- Decimal rendering of a rational bound, matching JS number printing on the
    finite short decimals the configuration holds (`0.7` → "0.7"). -/
def ratStr (q : Rat) : List Char :=
  let sgn : List Char := if q.num < 0 then ['-'] else []
  let na := q.num.natAbs
  let rm := na % q.den
  sgn ++ natStr (na / q.den) ++ (if rm = 0 then [] else '.' :: ratDigits 30 rm q.den)

structure ValidationConfig where
  maxVoices : Nat
  maxLines : Nat
  maxRandomUsage : Nat
  maxEffectsPerVoice : Nat
  requireSetcpm : Bool
  rejectLocalhost : Bool
  maxDelayFeedback : Rat
  maxRoomSize : Rat
deriving DecidableEq

def DEFAULT_CONFIG : ValidationConfig :=
  { maxVoices := 8, maxLines := 250, maxRandomUsage := 15, maxEffectsPerVoice := 8,
    requireSetcpm := true, rejectLocalhost := true,
    maxDelayFeedback := mkRat 7 10, maxRoomSize := mkRat 19 20 }

/-- Caller-supplied partial configuration (`Partial<ValidationConfig>`). -/
structure ConfigOverride where
  maxVoices : Option Nat := none
  maxLines : Option Nat := none
  maxRandomUsage : Option Nat := none
  maxEffectsPerVoice : Option Nat := none
  requireSetcpm : Option Bool := none
  rejectLocalhost : Option Bool := none
  maxDelayFeedback : Option Rat := none
  maxRoomSize : Option Rat := none
deriving DecidableEq

/-- JS spread merge `{ ...DEFAULT_CONFIG, ...config }`. -/
def mergeConfig (o : ConfigOverride) : ValidationConfig :=
  { maxVoices := o.maxVoices.getD DEFAULT_CONFIG.maxVoices,
    maxLines := o.maxLines.getD DEFAULT_CONFIG.maxLines,
    maxRandomUsage := o.maxRandomUsage.getD DEFAULT_CONFIG.maxRandomUsage,
    maxEffectsPerVoice := o.maxEffectsPerVoice.getD DEFAULT_CONFIG.maxEffectsPerVoice,
    requireSetcpm := o.requireSetcpm.getD DEFAULT_CONFIG.requireSetcpm,
    rejectLocalhost := o.rejectLocalhost.getD DEFAULT_CONFIG.rejectLocalhost,
    maxDelayFeedback := o.maxDelayFeedback.getD DEFAULT_CONFIG.maxDelayFeedback,
    maxRoomSize := o.maxRoomSize.getD DEFAULT_CONFIG.maxRoomSize }

/-- Count `$:` voice markers (non-overlapping). -/
def countVoices : List Char → Nat
  | '$' :: ':' :: r => 1 + countVoices r
  | _ :: r => countVoices r
  | [] => 0

/-- Count non-empty, non-comment lines. -/
def countLines (code : List Char) : Nat :=
  ((splitNL code).filter (fun l =>
    let t := trimStr l
    !t.isEmpty && !(("//".data).isPrefixOf t))).length

def hasSetcpm (code : List Char) : Bool := hasCallCI ("setcpm".data) code

def quoteChar (c : Char) : Bool := c = squote || c = dquote || c = bquote

/-- Consume one optional (case-insensitive) character, greedy `s?`. -/
def stripOptCI (c : Char) (l : List Char) : List Char :=
  match l with
  | x :: r => if x.toLower = c then r else l
  | [] => l

/-- Match `samples?\s*\(\s*['"`]https?://` (optionally followed by `localhost`)
    at this position, case-insensitively. -/
def samplesURLAt (needLH : Bool) (s : List Char) : Bool :=
  match stripPfxCI ("sample".data) s with
  | none => false
  | some r0 =>
    match (stripOptCI 's' r0).dropWhile wsChar with
    | '(' :: r2 =>
      match r2.dropWhile wsChar with
      | q :: r4 =>
        if quoteChar q then
          match stripPfxCI ("http".data) r4 with
          | none => false
          | some r5 =>
            match stripPfx ("://".data) (stripOptCI 's' r5) with
            | none => false
            | some r7 => if needLH then (stripPfxCI ("localhost".data) r7).isSome else true
        else false
      | [] => false
    | _ => false

/-- Match `await\s+samples?\s*\(` at this position, case-insensitively. -/
def awaitSamplesAt (s : List Char) : Bool :=
  match stripPfxCI ("await".data) s with
  | none => false
  | some r0 =>
    match r0 with
    | c :: r1 =>
      if wsChar c then
        match stripPfxCI ("sample".data) (r1.dropWhile wsChar) with
        | none => false
        | some r3 => callAfter (stripOptCI 's' r3)
      else false
    | [] => false

def hasForbiddenSamples (code : List Char) : Bool :=
  existsAt (samplesURLAt true) code || existsAt (samplesURLAt false) code ||
    existsAt awaitSamplesAt code

def stripLineComment : List Char → List Char
  | [] => []
  | '/' :: '/' :: _ => []
  | c :: r => c :: stripLineComment r

def stripComments (code : List Char) : List Char :=
  joinNL ((splitNL code).map stripLineComment)

def isWordChar (c : Char) : Bool := c.isAlpha || c.isDigit || c = '_'

/-- Match `\.\s*name\s*\(` at this position. -/
def dotCallAt (name : List Char) (s : List Char) : Bool :=
  match s with
  | '.' :: r =>
    match stripPfx name (r.dropWhile wsChar) with
    | some r2 => callAfter r2
    | none => false
  | _ => false

def hasDotCall (name code : List Char) : Bool := existsAt (dotCallAt name) code

/-- Suffix of the string-literal-method regex after the closing quote:
    `\s*\.\s*[a-zA-Z_]\w*\s*\(`. -/
def smpSfx (r : List Char) : Bool :=
  match r.dropWhile wsChar with
  | '.' :: r1 =>
    match r1.dropWhile wsChar with
    | c :: r2 => (c.isAlpha || c = '_') && callAfter (r2.dropWhile isWordChar)
    | [] => false
  | _ => false

/-- Inner of `(["'])(?:\\.|(?!\1).)*\1` followed by the method suffix: a
    backslash may stand alone or escape the next non-newline character; `.`
    never matches a newline, so content cannot span lines; an unescaped quote
    `q` closes the literal (all backtracking alternatives explored). -/
def smpInner (q : Char) : List Char → Bool
  | [] => false
  | '\\' :: c :: r => smpInner q (c :: r) || (!(c = '\n') && smpInner q r)
  | c :: r => if c = q then smpSfx r else if c = '\n' then false else smpInner q r

def smpAt (s : List Char) : Bool :=
  match s with
  | c :: r => (c = dquote || c = squote) && smpInner c r
  | [] => false

def hasStringMethod (code : List Char) : Bool := existsAt smpAt code

def msgNote : List Char :=
  "invalid method .note(...) - use note(...) or .detune(...) instead".data

def msgResonance : List Char :=
  "invalid method .resonance(...) - use .lpq(...) instead".data

def msgEuclidean : List Char :=
  "invalid method .euclidean(...) - not available in this build".data

def msgStringMethod : List Char :=
  "string literal method call detected - apply transforms to patterns, not strings".data

def findInvalidMethodUsage (code : List Char) : List (List Char) :=
  let cwc := stripComments code
  (if hasDotCall ("note".data) cwc then [msgNote] else []) ++
  (if hasDotCall ("resonance".data) cwc then [msgResonance] else []) ++
  (if hasDotCall ("euclidean".data) cwc then [msgEuclidean] else []) ++
  (if hasStringMethod cwc then [msgStringMethod] else [])

/-- Remainder after `\s*\(`. -/
def afterCall (r : List Char) : List Char := (r.dropWhile wsChar).drop 1

/-- Match `(rand|irand)\s*\(` at this position (the `\b` is checked by the caller). -/
def tryRandAt (s : List Char) : Option (List Char) :=
  match stripPfx ("rand".data) s with
  | some r => if callAfter r then some (afterCall r) else none
  | none =>
    match stripPfx ("irand".data) s with
    | some r => if callAfter r then some (afterCall r) else none
    | none => none

def countRandAux : Nat → Bool → List Char → Nat
  | 0, _, _ => 0
  | _ + 1, _, [] => 0
  | fuel + 1, prevW, c :: r =>
    if !prevW then
      match tryRandAt (c :: r) with
      | some rem => 1 + countRandAux fuel false rem
      | none => countRandAux fuel (isWordChar c) r
    else countRandAux fuel (isWordChar c) r

/-- `/\b(rand|irand)\s*\(/g` occurrence count. -/
def countRand (code : List Char) : Nat := countRandAux code.length false code

def tryPerlinAt (s : List Char) : Option (List Char) :=
  match stripPfx ("perlin".data) s with
  | some r =>
    match r with
    | c :: _ => if isWordChar c then none else some r
    | [] => some r
  | none => none

def countPerlinAux : Nat → Bool → List Char → Nat
  | 0, _, _ => 0
  | _ + 1, _, [] => 0
  | fuel + 1, prevW, c :: r =>
    if !prevW then
      match tryPerlinAt (c :: r) with
      | some rem => 1 + countPerlinAux fuel true rem
      | none => countPerlinAux fuel (isWordChar c) r
    else countPerlinAux fuel (isWordChar c) r

/-- `/\bperlin\b/g` occurrence count. -/
def countPerlin (code : List Char) : Nat := countPerlinAux code.length false code

/-- The probability-transform alternation, in regex order. -/
def probNames : List (List Char) :=
  ["sometimesBy".data, "sometimes".data, "rarely".data, "almostNever".data,
   "almostAlways".data, "choose".data, "chooseCycles".data]

def tryNamesCall : List (List Char) → List Char → Option (List Char)
  | [], _ => none
  | n :: ns, s =>
    match stripPfx n s with
    | some r => if callAfter r then some (afterCall r) else tryNamesCall ns s
    | none => tryNamesCall ns s

def tryProbAt (s : List Char) : Option (Unit × List Char) :=
  match s with
  | '.' :: r => (tryNamesCall probNames r).map (fun rem => ((), rem))
  | _ => none

/-- `/\.(sometimesBy|...|chooseCycles)\s*\(/g` occurrence count. -/
def countProb (code : List Char) : Nat := (scanP tryProbAt code.length code).length

def countRandomUsage (code : List Char) : Nat :=
  countRand code + countPerlin code + countProb code

/-- JS `parseFloat` restricted to a digits-and-dots string; `none` is NaN. -/
def parseFloatDD (ds : List Char) : Option Rat :=
  let ip := ds.takeWhile Char.isDigit
  let rest := ds.drop ip.length
  if !ip.isEmpty then
    match rest with
    | '.' :: r =>
      let fr := r.takeWhile Char.isDigit
      some (mkRat (digitsToNat ip * 10 ^ fr.length + digitsToNat fr) (10 ^ fr.length))
    | _ => some (mkRat (digitsToNat ip) 1)
  else
    match rest with
    | '.' :: r =>
      let fr := r.takeWhile Char.isDigit
      if fr.isEmpty then none else some (mkRat (digitsToNat fr) (10 ^ fr.length))
    | _ => none

/-- Match `name\s*\(\s*([\d.]+)` at this position; payload is the parsed value. -/
def tryNumArgAt (name : List Char) (s : List Char) : Option (Option Rat × List Char) :=
  match stripPfx name s with
  | none => none
  | some r =>
    if callAfter r then
      let r2 := (afterCall r).dropWhile wsChar
      let ds := r2.takeWhile (fun c => c.isDigit || c = '.')
      if ds.isEmpty then none else some (parseFloatDD ds, r2.drop ds.length)
    else none

def numArgs (name code : List Char) : List (Option Rat) :=
  scanP (tryNumArgAt name) code.length code

def ratGT (v : Option Rat) (bound : Rat) : Bool :=
  match v with
  | some q => decide (bound < q)
  | none => false

def hasExtremeEffects (code : List Char) (cfg : ValidationConfig) : Bool :=
  (numArgs (".delayfeedback".data) code).any (fun v => ratGT v cfg.maxDelayFeedback) ||
  (numArgs (".room".data) code).any (fun v => ratGT v cfg.maxRoomSize) ||
  (numArgs (".gain".data) code).any (fun v => ratGT v 2)

/-- Match one quoted literal `["'`][^"'`]*["'`]` (quotes need not match). -/
def tryStringLit (s : List Char) : Option (List Char × List Char) :=
  match s with
  | c :: r =>
    if quoteChar c then
      let inner := r.takeWhile (fun x => !quoteChar x)
      match r.drop inner.length with
      | c2 :: rest => if quoteChar c2 then some (c :: inner ++ [c2], rest) else none
      | [] => none
    else none
  | [] => none

/-- All quoted string literals, scanned left to right without overlap. -/
def stringContents (code : List Char) : List (List Char) :=
  scanP tryStringLit code.length code

def synParenMsg (o c : Nat) : List Char :=
  ("unbalanced parentheses: ".data) ++ natStr o ++ (" opening '(' vs ".data) ++
    natStr c ++ (" closing ')'".data)

def synBracketMsg (o c : Nat) : List Char :=
  ("unbalanced brackets: ".data) ++ natStr o ++ (" opening '[' vs ".data) ++
    natStr c ++ (" closing ']'".data)

def synBraceMsg (o c : Nat) : List Char :=
  ("unbalanced braces: ".data) ++ natStr o ++ (" opening '\x7b' vs ".data) ++
    natStr c ++ (" closing '\x7d'".data)

def synMiniMsg (o c : Nat) : List Char :=
  ("unbalanced mini-notation: ".data) ++ natStr o ++ (" opening '<' vs ".data) ++
    natStr c ++ (" closing '>' in pattern".data)

def firstUnbalancedLit : List (List Char) → Option (Nat × Nat)
  | [] => none
  | s :: rest =>
    let o := countChar '<' s
    let c := countChar '>' s
    if o ≠ c then some (o, c) else firstUnbalancedLit rest

def getSyntaxIssue (code : List Char) : Option (List Char) :=
  let op := countChar '(' code
  let cp := countChar ')' code
  if op ≠ cp then some (synParenMsg op cp)
  else
    let ob := countChar '[' code
    let cb := countChar ']' code
    if ob ≠ cb then some (synBracketMsg ob cb)
    else
      let oc := countChar lbrace code
      let cc := countChar rbrace code
      if oc ≠ cc then some (synBraceMsg oc cc)
      else
        match firstUnbalancedLit (stringContents code) with
        | some (o, c) => some (synMiniMsg o c)
        | none => none

def effectMethods : List (List Char) :=
  [".lpf".data, ".hpf".data, ".bpf".data,
   ".delay".data, ".delaytime".data, ".delayfeedback".data,
   ".room".data, ".size".data, ".dry".data,
   ".crush".data, ".coarse".data,
   ".shape".data, ".distort".data,
   ".vowel".data, ".hcutoff".data, ".hresonance".data,
   ".cutoff".data, ".resonance".data,
   ".pan".data, ".speed".data]

/-- The per-effect regex the source builds is the text `\\.name` (the effect's
    dot is first rewritten to `\.`, then one more backslash is prepended), which
    as a regex means: a literal backslash, any character except newline, then
    the effect name without its dot. -/
def tryEffectAt (nameTail : List Char) (s : List Char) : Option (Unit × List Char) :=
  match s with
  | '\\' :: c :: r =>
    if c ≠ '\n' then
      match stripPfx nameTail r with
      | some rem => some ((), rem)
      | none => none
    else none
  | _ => none

def countEffectOnLine (e line : List Char) : Nat :=
  (scanP (tryEffectAt (e.drop 1)) line.length line).length

def lineEffectCount (line : List Char) : Nat :=
  (effectMethods.map (fun e => countEffectOnLine e line)).sum

def checkEffectsDensity (code : List Char) (cfg : ValidationConfig) : Bool :=
  (splitNL code).any (fun line =>
    containsSub ("$:".data) line && decide (cfg.maxEffectsPerVoice < lineEffectCount line))

/-- Match `\.fast\s*\(\s*(\d+)` at this position; payload is the parsed integer. -/
def tryFastAt (s : List Char) : Option (Nat × List Char) :=
  match stripPfx (".fast".data) s with
  | none => none
  | some r =>
    if callAfter r then
      let r2 := (afterCall r).dropWhile wsChar
      let ds := r2.takeWhile Char.isDigit
      if ds.isEmpty then none else some (digitsToNat ds, r2.drop ds.length)
    else none

def fastValues (code : List Char) : List Nat := scanP tryFastAt code.length code

/-- Match `note\s*\(\s*"[^"]*"` at this position; payload is the quoted inner
    text (the only part on which the high-note test can fire). -/
def tryNoteLitAt (s : List Char) : Option (List Char × List Char) :=
  match stripPfx ("note".data) s with
  | none => none
  | some r =>
    if callAfter r then
      match (afterCall r).dropWhile wsChar with
      | c :: r3 =>
        if c = dquote then
          let inner := r3.takeWhile (fun x => x ≠ dquote)
          match r3.drop inner.length with
          | c2 :: rest => if c2 = dquote then some (inner, rest) else none
          | [] => none
        else none
      | [] => none
    else none

def noteLits (code : List Char) : List (List Char) := scanP tryNoteLitAt code.length code

/-- regex `[a-g][#b]?9` tested anywhere in lower-cased text. -/
def hasHighNote : List Char → Bool
  | [] => false
  | c :: r =>
    (('a' ≤ c && c ≤ 'g') &&
      (match r with
       | d :: r2 =>
         d = '9' || ((d = '#' || d = 'b') &&
           (match r2 with
            | e :: _ => e = '9'
            | [] => false))
       | [] => false)) || hasHighNote r

def msgFast : List Char :=
  "extremely fast pattern detected (>64x) - may cause audio glitches".data

def msgHighNote : List Char :=
  "extremely high note values detected - may cause issues".data

def hasDangerousPatterns (code : List Char) : Option (List Char) :=
  if (fastValues code).any (fun v => decide (64 < v)) then some msgFast
  else if (noteLits code).any (fun s => hasHighNote (s.map Char.toLower)) then some msgHighNote
  else none

def msgVoices (n m : Nat) : List Char :=
  ("too many voices (".data) ++ natStr n ++ ("/".data) ++ natStr m ++
    (" max) - simplify to fewer tracks".data)

def msgLines (n m : Nat) : List Char :=
  ("code too long (".data) ++ natStr n ++ ("/".data) ++ natStr m ++
    (" lines max) - simplify".data)

def msgShort : List Char := "code too short - add more content".data

def msgSetcpm : List Char := "missing setcpm() - set tempo at the start".data

def msgSamples : List Char := "uses external/localhost samples - only use built-in samples".data

def msgRandom (n m : Nat) : List Char :=
  ("excessive randomness (".data) ++ natStr n ++ ("/".data) ++ natStr m ++
    (" max) - reduce variation techniques".data)

def msgExtreme (cfg : ValidationConfig) : List Char :=
  ("extreme effect values detected - reduce delay feedback (max ".data) ++
    ratStr cfg.maxDelayFeedback ++ ("), reverb (max ".data) ++ ratStr cfg.maxRoomSize ++
    ("), or gain (max 2.0)".data)

def msgDensity (m : Nat) : List Char :=
  ("too many effects on a single voice (max ".data) ++ natStr m ++
    (") - simplify effect chains".data)

structure ValidationResult where
  valid : Bool
  issues : List (List Char)
deriving DecidableEq

/-- `validateStrudelCode`: merge the caller's overrides over the defaults, run
    every rule in order, aggregate all failing rules' issues. -/
def validateStrudelCode (code : List Char) (ovr : ConfigOverride) : ValidationResult :=
  let cfg := mergeConfig ovr
  let issues : List (List Char) := []
  let voiceCount := countVoices code
  let issues := if cfg.maxVoices < voiceCount then
    issues ++ [msgVoices voiceCount cfg.maxVoices] else issues
  let lineCount := countLines code
  let issues := if cfg.maxLines < lineCount then
    issues ++ [msgLines lineCount cfg.maxLines] else issues
  let issues := if lineCount < 5 then issues ++ [msgShort] else issues
  let issues := if cfg.requireSetcpm && !hasSetcpm code then issues ++ [msgSetcpm] else issues
  let issues := if cfg.rejectLocalhost && hasForbiddenSamples code then
    issues ++ [msgSamples] else issues
  let randomUsage := countRandomUsage code
  let issues := if cfg.maxRandomUsage < randomUsage then
    issues ++ [msgRandom randomUsage cfg.maxRandomUsage] else issues
  let issues := if hasExtremeEffects code cfg then issues ++ [msgExtreme cfg] else issues
  let issues :=
    match getSyntaxIssue code with
    | some m => issues ++ [m]
    | none => issues
  let issues := issues ++ findInvalidMethodUsage code
  let issues := if checkEffectsDensity code cfg then
    issues ++ [msgDensity cfg.maxEffectsPerVoice] else issues
  let issues :=
    match hasDangerousPatterns code with
    | some m => issues ++ [m]
    | none => issues
  { valid := issues.isEmpty, issues := issues }

/-! Per-rule issue lists of the validator, used to state that the aggregate
    result is their ordered concatenation. -/

def voiceIssues (code : List Char) (cfg : ValidationConfig) : List (List Char) :=
  if cfg.maxVoices < countVoices code then [msgVoices (countVoices code) cfg.maxVoices] else []

def lineBudgetIssues (code : List Char) (cfg : ValidationConfig) : List (List Char) :=
  (if cfg.maxLines < countLines code then [msgLines (countLines code) cfg.maxLines] else []) ++
    (if countLines code < 5 then [msgShort] else [])

def tempoIssues (code : List Char) (cfg : ValidationConfig) : List (List Char) :=
  if cfg.requireSetcpm && !hasSetcpm code then [msgSetcpm] else []

def sampleIssues (code : List Char) (cfg : ValidationConfig) : List (List Char) :=
  if cfg.rejectLocalhost && hasForbiddenSamples code then [msgSamples] else []

def randomIssues (code : List Char) (cfg : ValidationConfig) : List (List Char) :=
  if cfg.maxRandomUsage < countRandomUsage code then
    [msgRandom (countRandomUsage code) cfg.maxRandomUsage] else []

def extremeIssues (code : List Char) (cfg : ValidationConfig) : List (List Char) :=
  if hasExtremeEffects code cfg then [msgExtreme cfg] else []

def syntaxIssues (code : List Char) : List (List Char) :=
  (getSyntaxIssue code).toList

def densityIssues (code : List Char) (cfg : ValidationConfig) : List (List Char) :=
  if checkEffectsDensity code cfg then [msgDensity cfg.maxEffectsPerVoice] else []

def dangerIssues (code : List Char) : List (List Char) :=
  (hasDangerousPatterns code).toList

/-! ## src/app/api/claude/route.ts (generation orchestrator) and the client
    stream handler of the page component -/

/-- `extractCodeForValidation`: first fenced block whose trimmed body is longer
    than 30 characters, else `none`. -/
def extractCodeForValidation (text : List Char) : Option (List Char) :=
  (findBlocks text).findSome? (fun m =>
    let code := trimStr m
    if decide (30 < code.length) then some code else none)

/-- The fields of `getConfigValues()` (creativeDirectives.ts) that route.ts
    forwards to the validator: `{ maxVoices: 6, maxLines: 150, maxRandomUsage: 4 }`
    (the remaining options fall back to the validator defaults). -/
def routeOverride : ConfigOverride :=
  { maxVoices := some 6, maxLines := some 150, maxRandomUsage := some 4 }

/-- Framed events of the outbound server-sent stream. -/
inductive SEvent where
  | delta (text : List Char)
  | status (s : List Char)
  | clear
  | errorEv (msg : List Char)
  | done
deriving DecidableEq

def isStatus : SEvent → Bool
  | SEvent.status _ => true
  | _ => false

def isClear : SEvent → Bool
  | SEvent.clear => true
  | _ => false

structure OrchTrace where
  events : List SEvent
  validatorCalls : Nat
  attemptsStarted : Nat
deriving DecidableEq

/-- The stream body of `POST`: forward the first completion's chunks, extract,
    validate once; on failure emit one status and one clear event and forward a
    second completion unconditionally; close with the sentinel.  `chunks1` and
    `chunks2` are the text chunks the two provider streams deliver (the model
    assumes both streams complete without transport error). -/
def runGeneration (chunks1 chunks2 : List (List Char)) : OrchTrace :=
  let d1 := chunks1.map SEvent.delta
  let fullText := chunks1.flatten
  match extractCodeForValidation fullText with
  | none => { events := d1 ++ [SEvent.done], validatorCalls := 0, attemptsStarted := 1 }
  | some code =>
    let v := validateStrudelCode code routeOverride
    if v.valid then
      { events := d1 ++ [SEvent.done], validatorCalls := 1, attemptsStarted := 1 }
    else
      { events := d1 ++ [SEvent.status ("simplifying...".data), SEvent.clear] ++
          chunks2.map SEvent.delta ++ [SEvent.done],
        validatorCalls := 1, attemptsStarted := 2 }

/-- Client-side accumulation step: deltas append, `clear` resets the buffer,
    other events leave it unchanged. -/
def accumStep (acc : List Char) (e : SEvent) : List Char :=
  match e with
  | SEvent.delta t => acc ++ t
  | SEvent.clear => []
  | _ => acc

def clientAccum (evs : List SEvent) : List Char := evs.foldl accumStep []

inductive ClientOutcome where
  | applied (code : List Char)
  | failed (msg : List Char)
deriving DecidableEq

def noCodeFallback : List Char := "The AI response didn't contain valid code".data

/-- The client's post-stream handling: empty check, strict parse with
    `parseClaudeOutput`, then apply the parsed code or surface the error. -/
def clientFinish (fullText : List Char) : ClientOutcome :=
  if (trimStr fullText).isEmpty then
    ClientOutcome.failed
      ("Empty response from AI. The model may be overloaded - please try again.".data)
  else
    let pr := parseClaudeOutput fullText
    match pr.code with
    | some c =>
      if pr.success then ClientOutcome.applied c
      else ClientOutcome.failed (pr.error.getD noCodeFallback)
    | none => ClientOutcome.failed (pr.error.getD noCodeFallback)

/-! ## Concrete inputs used by individual claims -/

def noOverride : ConfigOverride := {}

/-- Artifact with nine randomness operations (nine `rand()` calls). -/
def nineRandCode : List Char :=
  ("setcpm(120)\n$: s(\"bd\").gain(rand()).delay(rand()).room(rand()).hpf(rand())\n$: note(\"c4\").s(\"piano\").gain(rand()).delay(rand()).crush(rand()).shape(rand()).pan(rand())").data

/-- Artifact with sixteen randomness operations (sixteen `rand()` calls),
    taken from the repository's own test suite. -/
def sixteenRandCode : List Char :=
  ("setcpm(120)\n$: s(\"bd\").gain(rand()).delay(rand()).room(rand()).hpf(rand()).lpf(rand()).lpq(rand()).pan(rand()).shape(rand())\n$: note(\"c4\").s(\"piano\").gain(rand()).delay(rand()).room(rand()).crush(rand()).coarse(rand()).shape(rand()).pan(rand()).lpf(rand())").data

/-- Artifact containing a `.room(0.95)` call (at the default ceiling). -/
def room095Code : List Char :=
  ("setcpm(120)\n$: note(\"c4\").s(\"piano\").room(0.95)\n$: s(\"bd sd bd sd bd sd\")").data

/-- The same artifact with `.room(0.96)` instead. -/
def room096Code : List Char :=
  ("setcpm(120)\n$: note(\"c4\").s(\"piano\").room(0.96)\n$: s(\"bd sd bd sd bd sd\")").data

/-- The per-line normal form `isCodeUnchanged` compares under: trim each line,
    drop blank lines. -/
def normL (L : List (List Char)) : List (List Char) :=
  (L.map trimStr).filter (fun l => !l.isEmpty)

/-- Whitespace usable inside one line (no newline). -/
def edgeWS (l : List Char) : Bool := l.all (fun c => wsChar c && !(c = '\n'))

def noNL (l : List Char) : Bool := l.all (fun c => !(c = '\n'))

/-- `PadRel L M`: the line list `M` is obtained from `L` by adding leading and
    trailing intra-line whitespace to lines and inserting whitespace-only
    (blank) lines. -/
inductive PadRel : List (List Char) → List (List Char) → Prop where
  | nil : PadRel [] []
  | pad (w1 w2 l : List Char) (L M : List (List Char)) :
      edgeWS w1 = true → edgeWS w2 = true → PadRel L M →
      PadRel (l :: L) ((w1 ++ l ++ w2) :: M)
  | blank (b : List Char) (L M : List (List Char)) :
      edgeWS b = true → PadRel L M → PadRel L (b :: M)

/-- Concrete line lists for the padding relation. -/
def plainLines : List (List Char) := [("a b".data), ("c".data)]

def paddedLines : List (List Char) := [("  a b ".data), (" ".data), ("c".data)]

/-- Does the list contain the two-character sequence `x y` (adjacent)? -/
def hasPair (x y : Char) : List Char → Bool
  | [] => false
  | [_] => false
  | a :: b :: r => (a = x && b = y) || hasPair x y (b :: r)

/-- `cleanCode` input on which idempotence fails: backslash, backslash, quote
    (JS source text `\\"`). -/
def escCx : List Char := ['\\', '\\', dquote]

/-- A normal escaped input (no two adjacent backslashes). -/
def escOk : List Char := ("line1\\nline2 \\\"x\\\"").data

/-- Input with an unbalanced quoted literal but also unbalanced parentheses:
    two `(` and a quoted `<`. -/
def angleCx : List Char := ("((\n'<'").data

/-- Unbalanced `<` outside any quoted literal (no quotes at all). -/
def angleOutside : List Char := ("$: a < b\nsetcpm(1)").data

/-- Balanced delimiters, one balanced literal and one unbalanced literal. -/
def angleInLit : List Char := ("'<>' '<'").data

/-- Unfenced text matching two heuristic markers (a note call and a sample
    call). -/
def heuristicText : List Char := ("note(\"a\") s(\"b\")").data

/-- Text with no fenced block and no heuristic markers. -/
def proseText : List Char := ("hello world").data

/-- Text with two fenced blocks. -/
def twoBlockText : List Char := ("```\nA```x```\nB```").data

/-- Text with one fenced block whose body trims to empty. -/
def emptyBlockText : List Char := ("```\n\n```").data

/-- A first completion whose single fenced block is short (30 characters or
    fewer once trimmed), so the orchestrator extracts nothing, while the
    client parser accepts it. -/
def extractCx : List Char := ("```\nsetcpm(9)\n$: s(\"bd\")\n```").data

/-- The code inside `extractCx`. -/
def extractCxCode : List Char := ("setcpm(9)\n$: s(\"bd\")").data

/-- A first completion whose fenced body is longer than 30 characters but
    fails validation (no tempo call, too short, no voices). -/
def retryChunk : List Char := ("```\naaaaaaaaaaaaaaaaaaaaaaaaaaaaaaaaaaa\n```").data

/-- The extracted body of `retryChunk` (35 characters). -/
def retryCode : List Char := ("aaaaaaaaaaaaaaaaaaaaaaaaaaaaaaaaaaa").data

/-! ## Helper lemmas -/

theorem not_pfx_append (p q X : List Char) (h1 : p.isPrefixOf q = false)
    (h2 : q.isPrefixOf p = false) : p.isPrefixOf (q ++ X) = false := by
  induction p generalizing q with
  | nil => simp [List.isPrefixOf] at h1
  | cons a as ih =>
    cases q with
    | nil => simp [List.isPrefixOf] at h2
    | cons b bs =>
      by_cases hab : a = b
      · subst hab
        simp only [List.cons_append, List.isPrefixOf, beq_self_eq_true, Bool.true_and] at h1 h2 ⊢
        exact ih bs h1 h2
      · simp [List.isPrefixOf, hab]

theorem pfx_append_self (p X : List Char) : p.isPrefixOf (p ++ X) = true := by
  induction p with
  | nil => simp [List.isPrefixOf]
  | cons a as ih => simp [List.isPrefixOf, ih]

theorem parse_fields (r : List Char) :
    ((parseClaudeOutput r).code.isSome = (parseClaudeOutput r).success) ∧
    ((parseClaudeOutput r).error.isSome = !(parseClaudeOutput r).success) := by
  unfold parseClaudeOutput finishArtifact
  dsimp only
  repeat' split
  all_goals exact ⟨rfl, rfl⟩

theorem if_push (c : Prop) [Decidable c] (l : List (List Char)) (x : List Char) :
    (if c then l ++ [x] else l) = l ++ (if c then [x] else []) := by
  split <;> simp

theorem match_push (o : Option (List Char)) (l : List (List Char)) :
    (match o with | some m => l ++ [m] | none => l) = l ++ o.toList := by
  cases o <;> simp

theorem issues_decomp (code : List Char) (ovr : ConfigOverride) :
    (validateStrudelCode code ovr).issues =
      voiceIssues code (mergeConfig ovr) ++ lineBudgetIssues code (mergeConfig ovr) ++
      tempoIssues code (mergeConfig ovr) ++ sampleIssues code (mergeConfig ovr) ++
      randomIssues code (mergeConfig ovr) ++ extremeIssues code (mergeConfig ovr) ++
      syntaxIssues code ++ findInvalidMethodUsage code ++
      densityIssues code (mergeConfig ovr) ++ dangerIssues code := by
  unfold validateStrudelCode voiceIssues lineBudgetIssues tempoIssues sampleIssues
    randomIssues extremeIssues syntaxIssues densityIssues dangerIssues
  simp only [if_push, match_push]
  simp only [List.nil_append, List.append_assoc]

theorem any_issues_or (p : List Char → Bool) (code : List Char) (ovr : ConfigOverride) :
    (validateStrudelCode code ovr).issues.any p =
      ((voiceIssues code (mergeConfig ovr)).any p ||
       (lineBudgetIssues code (mergeConfig ovr)).any p ||
       (tempoIssues code (mergeConfig ovr)).any p ||
       (sampleIssues code (mergeConfig ovr)).any p ||
       (randomIssues code (mergeConfig ovr)).any p ||
       (extremeIssues code (mergeConfig ovr)).any p ||
       (syntaxIssues code).any p ||
       (findInvalidMethodUsage code).any p ||
       (densityIssues code (mergeConfig ovr)).any p ||
       (dangerIssues code).any p) := by
  rw [issues_decomp]
  simp [List.any_append, Bool.or_assoc]

theorem any_if_single (c : Prop) [Decidable c] (x : List Char) (p : List Char → Bool)
    (h : p x = false) : (if c then [x] else []).any p = false := by
  split <;> simp [h]

theorem any_voice (p : List Char → Bool) (code : List Char) (cfg : ValidationConfig)
    (h : ∀ n m, p (msgVoices n m) = false) : (voiceIssues code cfg).any p = false := by
  unfold voiceIssues
  exact any_if_single _ _ _ (h _ _)

theorem any_lineBudget (p : List Char → Bool) (code : List Char) (cfg : ValidationConfig)
    (h1 : ∀ n m, p (msgLines n m) = false) (h2 : p msgShort = false) :
    (lineBudgetIssues code cfg).any p = false := by
  unfold lineBudgetIssues
  rw [List.any_append, any_if_single _ _ _ (h1 _ _), any_if_single _ _ _ h2]
  rfl

theorem any_tempo (p : List Char → Bool) (code : List Char) (cfg : ValidationConfig)
    (h : p msgSetcpm = false) : (tempoIssues code cfg).any p = false := by
  unfold tempoIssues
  exact any_if_single _ _ _ h

theorem any_sample (p : List Char → Bool) (code : List Char) (cfg : ValidationConfig)
    (h : p msgSamples = false) : (sampleIssues code cfg).any p = false := by
  unfold sampleIssues
  exact any_if_single _ _ _ h

theorem any_random_false (p : List Char → Bool) (code : List Char) (cfg : ValidationConfig)
    (h : ∀ n m, p (msgRandom n m) = false) : (randomIssues code cfg).any p = false := by
  unfold randomIssues
  exact any_if_single _ _ _ (h _ _)

theorem any_random_eq (p : List Char → Bool) (code : List Char) (cfg : ValidationConfig)
    (h : ∀ n m, p (msgRandom n m) = true) :
    (randomIssues code cfg).any p = decide (cfg.maxRandomUsage < countRandomUsage code) := by
  unfold randomIssues
  split
  · simp [h, decide_eq_true_eq, *]
  · simp only [List.any_nil]
    exact (decide_eq_false (by assumption)).symm

theorem any_extreme (p : List Char → Bool) (code : List Char) (cfg : ValidationConfig)
    (h : ∀ c, p (msgExtreme c) = false) : (extremeIssues code cfg).any p = false := by
  unfold extremeIssues
  exact any_if_single _ _ _ (h _)

theorem getSyntaxIssue_shape (code m : List Char) (h : getSyntaxIssue code = some m) :
    (∃ o c, m = synParenMsg o c) ∨ (∃ o c, m = synBracketMsg o c) ∨
    (∃ o c, m = synBraceMsg o c) ∨ (∃ o c, m = synMiniMsg o c) := by
  unfold getSyntaxIssue at h
  dsimp only at h
  repeat' split at h
  · exact Or.inl ⟨_, _, (Option.some_inj.mp h).symm⟩
  · exact Or.inr (Or.inl ⟨_, _, (Option.some_inj.mp h).symm⟩)
  · exact Or.inr (Or.inr (Or.inl ⟨_, _, (Option.some_inj.mp h).symm⟩))
  · exact Or.inr (Or.inr (Or.inr ⟨_, _, (Option.some_inj.mp h).symm⟩))
  · exact absurd h (by simp)

theorem any_syntax_false (p : List Char → Bool) (code : List Char)
    (h1 : ∀ o c, p (synParenMsg o c) = false) (h2 : ∀ o c, p (synBracketMsg o c) = false)
    (h3 : ∀ o c, p (synBraceMsg o c) = false) (h4 : ∀ o c, p (synMiniMsg o c) = false) :
    (syntaxIssues code).any p = false := by
  unfold syntaxIssues
  cases hs : getSyntaxIssue code with
  | none => rfl
  | some m =>
    rcases getSyntaxIssue_shape code m hs with ⟨o, c, rfl⟩ | ⟨o, c, rfl⟩ | ⟨o, c, rfl⟩ | ⟨o, c, rfl⟩ <;>
      simp [h1, h2, h3, h4]

theorem findInvalidMethodUsage_sub (code m : List Char) (h : m ∈ findInvalidMethodUsage code) :
    m = msgNote ∨ m = msgResonance ∨ m = msgEuclidean ∨ m = msgStringMethod := by
  unfold findInvalidMethodUsage at h
  dsimp only at h
  repeat' split at h
  all_goals simp_all
  all_goals tauto

theorem any_methods (p : List Char → Bool) (code : List Char)
    (h1 : p msgNote = false) (h2 : p msgResonance = false)
    (h3 : p msgEuclidean = false) (h4 : p msgStringMethod = false) :
    (findInvalidMethodUsage code).any p = false := by
  rw [List.any_eq_false]
  intro x hx
  rcases findInvalidMethodUsage_sub code x hx with rfl | rfl | rfl | rfl <;> simp [h1, h2, h3, h4]

theorem any_density (p : List Char → Bool) (code : List Char) (cfg : ValidationConfig)
    (h : ∀ n, p (msgDensity n) = false) : (densityIssues code cfg).any p = false := by
  unfold densityIssues
  exact any_if_single _ _ _ (h _)

theorem hasDangerousPatterns_shape (code m : List Char) (h : hasDangerousPatterns code = some m) :
    m = msgFast ∨ m = msgHighNote := by
  unfold hasDangerousPatterns at h
  repeat' split at h
  all_goals simp_all

theorem any_danger (p : List Char → Bool) (code : List Char)
    (h1 : p msgFast = false) (h2 : p msgHighNote = false) :
    (dangerIssues code).any p = false := by
  unfold dangerIssues
  cases hs : hasDangerousPatterns code with
  | none => rfl
  | some m =>
    rcases hasDangerousPatterns_shape code m hs with rfl | rfl <;> simp [h1, h2]

theorem firstUnbalancedLit_none (ls : List (List Char))
    (h : ∀ s ∈ ls, countChar '<' s = countChar '>' s) : firstUnbalancedLit ls = none := by
  induction ls with
  | nil => rfl
  | cons s rest ih =>
    unfold firstUnbalancedLit
    rw [if_neg]
    · exact ih (fun x hx => h x (List.mem_cons_of_mem s hx))
    · simpa using h s (List.mem_cons_self s rest)

theorem firstUnbalancedLit_some (ls : List (List Char))
    (h : ∃ s ∈ ls, countChar '<' s ≠ countChar '>' s) :
    ∃ o c, firstUnbalancedLit ls = some (o, c) ∧ o ≠ c := by
  induction ls with
  | nil => simp at h
  | cons s rest ih =>
    unfold firstUnbalancedLit
    by_cases hs : countChar '<' s ≠ countChar '>' s
    · exact ⟨_, _, if_pos hs, hs⟩
    · rw [if_neg hs]
      apply ih
      rcases h with ⟨x, hx, hxne⟩
      rcases List.mem_cons.mp hx with rfl | hx2
      · exact absurd hxne hs
      · exact ⟨x, hx2, hxne⟩

theorem syntax_any_of_balanced_lits (p : List Char → Bool) (code : List Char)
    (hfl : firstUnbalancedLit (stringContents code) = none)
    (h1 : ∀ o c, p (synParenMsg o c) = false) (h2 : ∀ o c, p (synBracketMsg o c) = false)
    (h3 : ∀ o c, p (synBraceMsg o c) = false) :
    (syntaxIssues code).any p = false := by
  unfold syntaxIssues getSyntaxIssue
  dsimp only
  repeat' split
  · simp [h1]
  · simp [h2]
  · simp [h3]
  · simp_all
  · rfl

theorem syntax_any_of_unbalanced_lit (p : List Char → Bool) (code : List Char)
    (hp : countChar '(' code = countChar ')' code)
    (hb : countChar '[' code = countChar ']' code)
    (hc : countChar lbrace code = countChar rbrace code)
    (hl : ∃ s ∈ stringContents code, countChar '<' s ≠ countChar '>' s)
    (hm : ∀ o c, p (synMiniMsg o c) = true) :
    (syntaxIssues code).any p = true := by
  rcases firstUnbalancedLit_some _ hl with ⟨o, c, hfl, _⟩
  unfold syntaxIssues getSyntaxIssue
  dsimp only
  rw [if_neg (by simpa using hp), if_neg (by simpa using hb), if_neg (by simpa using hc), hfl]
  simp [hm]

theorem hasPair_tail (x y a : Char) (r : List Char) (h : hasPair x y (a :: r) = false) :
    hasPair x y r = false := by
  cases r with
  | nil => rfl
  | cons b rest =>
    simp only [hasPair, Bool.or_eq_false_iff] at h
    exact h.2

theorem hasPair_cons (x y a : Char) (r : List Char) (h : hasPair x y r = true) :
    hasPair x y (a :: r) = true := by
  cases r with
  | nil => simp [hasPair] at h
  | cons b rest =>
    simp only [hasPair, Bool.or_eq_true] at h ⊢
    exact Or.inr h

theorem repEsc_single (tbl : Char → Option Char) (c : Char) : repEsc tbl [c] = [c] := by
  by_cases hc : c = '\\'
  · subst hc
    rfl
  · simp [repEsc, hc]

theorem repEsc_id (tbl : Char → Option Char) :
    ∀ l : List Char, (∀ c u, tbl c = some u → hasPair '\\' c l = false) → repEsc tbl l = l := by
  refine repEsc.induct tbl
    (fun l => (∀ c u, tbl c = some u → hasPair '\\' c l = false) → repEsc tbl l = l)
    ?_ ?_ ?_ ?_
  · intro _
    rfl
  · intro c r u htbl _ h
    have hfalse := h c u htbl
    simp [hasPair] at hfalse
  · intro c r htbl ih h
    have step : repEsc tbl ('\\' :: c :: r) = '\\' :: repEsc tbl (c :: r) := by
      simp [repEsc, htbl]
    rw [step, ih (fun c' u hu => hasPair_tail _ _ _ _ (h c' u hu))]
  · intro c r hne ih h
    have step : repEsc tbl (c :: r) = c :: repEsc tbl r := by
      cases r with
      | nil => simpa using repEsc_single tbl c
      | cons b bs =>
        have hc : ¬ c = '\\' := fun hc => hne b bs hc rfl
        simp [repEsc, hc]
    rw [step, ih (fun c' u hu => hasPair_tail _ _ _ _ (h c' u hu))]

theorem repEsc_pair_sub (tbl : Char → Option Char) (hout : ∀ c u, tbl c = some u → u ≠ '\\') :
    ∀ l : List Char, hasPair '\\' '\\' l = false → ∀ d : Char,
      hasPair '\\' d (repEsc tbl l) = true → tbl d = none ∧ hasPair '\\' d l = true := by
  refine repEsc.induct tbl
    (fun l => hasPair '\\' '\\' l = false → ∀ d : Char,
      hasPair '\\' d (repEsc tbl l) = true → tbl d = none ∧ hasPair '\\' d l = true)
    ?_ ?_ ?_ ?_
  · intro _ d hd
    simp [repEsc, hasPair] at hd
  · intro c r u htbl ih hnb d hd
    have hnbr : hasPair '\\' '\\' r = false :=
      hasPair_tail _ _ _ _ (hasPair_tail _ _ _ _ hnb)
    have step : repEsc tbl ('\\' :: c :: r) = u :: repEsc tbl r := by
      simp [repEsc, htbl]
    rw [step] at hd
    have hu : ¬ u = '\\' := hout c u htbl
    have hd' : hasPair '\\' d (repEsc tbl r) = true := by
      cases hrr : repEsc tbl r with
      | nil => rw [hrr] at hd; simp [hasPair] at hd
      | cons b bs =>
        rw [hrr] at hd
        simp only [hasPair, Bool.or_eq_true, Bool.and_eq_true, decide_eq_true_eq] at hd
        rcases hd with ⟨hu', _⟩ | hd
        · exact absurd hu' hu
        · simpa [hasPair] using hd
    rcases ih hnbr d hd' with ⟨h1, h2⟩
    exact ⟨h1, hasPair_cons _ _ _ _ (hasPair_cons _ _ _ _ h2)⟩
  · intro c r htbl ih hnb d hd
    have hcne : ¬ c = '\\' := by
      simp only [hasPair, Bool.or_eq_false_iff, Bool.and_eq_false_iff] at hnb
      rcases hnb.1 with h | h
      · simp at h
      · simpa using h
    have hnbc : hasPair '\\' '\\' (c :: r) = false := hasPair_tail _ _ _ _ hnb
    have step : repEsc tbl ('\\' :: c :: r) = '\\' :: repEsc tbl (c :: r) := by
      simp [repEsc, htbl]
    have hcstep : repEsc tbl (c :: r) = c :: repEsc tbl r := by
      cases r with
      | nil => simpa using repEsc_single tbl c
      | cons b bs => simp [repEsc, hcne]
    rw [step, hcstep] at hd
    by_cases hcd : c = d
    · subst hcd
      refine ⟨htbl, ?_⟩
      simp [hasPair]
    · have hd2 : hasPair '\\' d (repEsc tbl (c :: r)) = true := by
        rw [hcstep]
        simp only [hasPair, Bool.or_eq_true, Bool.and_eq_true, decide_eq_true_eq] at hd
        rcases hd with ⟨_, hcd'⟩ | hd
        · exact absurd hcd' hcd
        · exact hd
      rcases ih hnbc d hd2 with ⟨h1, h2⟩
      exact ⟨h1, hasPair_cons _ _ _ _ h2⟩
  · intro c r hne ih hnb d hd
    cases r with
    | nil =>
      rw [repEsc_single tbl c] at hd
      simp [hasPair] at hd
    | cons b bs =>
      have hcne : ¬ c = '\\' := fun hc => hne b bs hc rfl
      have step : repEsc tbl (c :: b :: bs) = c :: repEsc tbl (b :: bs) := by
        simp [repEsc, hcne]
      rw [step] at hd
      have hd' : hasPair '\\' d (repEsc tbl (b :: bs)) = true := by
        cases hrr : repEsc tbl (b :: bs) with
        | nil => rw [hrr] at hd; simp [hasPair] at hd
        | cons e es =>
          rw [hrr] at hd
          simp only [hasPair, Bool.or_eq_true, Bool.and_eq_true, decide_eq_true_eq] at hd
          rcases hd with ⟨hc', _⟩ | hd
          · exact absurd hc' hcne
          · exact hd
      rcases ih (hasPair_tail _ _ _ _ hnb) d hd' with ⟨h1, h2⟩
      exact ⟨h1, hasPair_cons _ _ _ _ h2⟩

theorem escTbl1_out : ∀ c u, escTbl1 c = some u → u ≠ '\\' := by
  intro c u h
  unfold escTbl1 at h
  split at h
  · rw [Option.some_inj] at h
    subst h
    decide
  · cases h

theorem escTbl2_out : ∀ c u, escTbl2 c = some u → u ≠ '\\' := by
  intro c u h
  unfold escTbl2 at h
  split at h
  · rw [Option.some_inj] at h
    subst h
    decide
  · cases h

theorem escTbl3_out : ∀ c u, escTbl3 c = some u → u ≠ '\\' := by
  intro c u h
  unfold escTbl3 at h
  repeat' split at h
  all_goals cases h
  all_goals decide

theorem cleanCode_fix_of_sep (x : List Char) (hnb : hasPair '\\' '\\' x = false) :
    cleanCode (cleanCode x) = cleanCode x := by
  have nb1 : hasPair '\\' '\\' (repEsc escTbl1 x) = false := by
    cases hh : hasPair '\\' '\\' (repEsc escTbl1 x)
    · rfl
    · rcases repEsc_pair_sub escTbl1 escTbl1_out x hnb '\\' hh with ⟨_, h2⟩
      simp [hnb] at h2
  have p1dq : hasPair '\\' dquote (repEsc escTbl1 x) = false := by
    cases hh : hasPair '\\' dquote (repEsc escTbl1 x)
    · rfl
    · rcases repEsc_pair_sub escTbl1 escTbl1_out x hnb dquote hh with ⟨h1, _⟩
      simp [escTbl1] at h1
  have nb2 : hasPair '\\' '\\' (repEsc escTbl2 (repEsc escTbl1 x)) = false := by
    cases hh : hasPair '\\' '\\' (repEsc escTbl2 (repEsc escTbl1 x))
    · rfl
    · rcases repEsc_pair_sub escTbl2 escTbl2_out _ nb1 '\\' hh with ⟨_, h2⟩
      simp [nb1] at h2
  have p2sq : hasPair '\\' squote (repEsc escTbl2 (repEsc escTbl1 x)) = false := by
    cases hh : hasPair '\\' squote (repEsc escTbl2 (repEsc escTbl1 x))
    · rfl
    · rcases repEsc_pair_sub escTbl2 escTbl2_out _ nb1 squote hh with ⟨h1, _⟩
      simp [escTbl2] at h1
  have p2dq : hasPair '\\' dquote (repEsc escTbl2 (repEsc escTbl1 x)) = false := by
    cases hh : hasPair '\\' dquote (repEsc escTbl2 (repEsc escTbl1 x))
    · rfl
    · rcases repEsc_pair_sub escTbl2 escTbl2_out _ nb1 dquote hh with ⟨_, h2⟩
      simp [p1dq] at h2
  have p3 : ∀ d : Char, escTbl3 d ≠ none →
      hasPair '\\' d (repEsc escTbl3 (repEsc escTbl2 (repEsc escTbl1 x))) = false := by
    intro d hdn
    cases hh : hasPair '\\' d (repEsc escTbl3 (repEsc escTbl2 (repEsc escTbl1 x)))
    · rfl
    · rcases repEsc_pair_sub escTbl3 escTbl3_out _ nb2 d hh with ⟨h1, _⟩
      exact absurd h1 hdn
  have p3dq : hasPair '\\' dquote (repEsc escTbl3 (repEsc escTbl2 (repEsc escTbl1 x))) = false := by
    cases hh : hasPair '\\' dquote (repEsc escTbl3 (repEsc escTbl2 (repEsc escTbl1 x)))
    · rfl
    · rcases repEsc_pair_sub escTbl3 escTbl3_out _ nb2 dquote hh with ⟨_, h2⟩
      simp [p2dq] at h2
  have p3sq : hasPair '\\' squote (repEsc escTbl3 (repEsc escTbl2 (repEsc escTbl1 x))) = false := by
    cases hh : hasPair '\\' squote (repEsc escTbl3 (repEsc escTbl2 (repEsc escTbl1 x)))
    · rfl
    · rcases repEsc_pair_sub escTbl3 escTbl3_out _ nb2 squote hh with ⟨_, h2⟩
      simp [p2sq] at h2
  have f1 : repEsc escTbl1 (cleanCode x) = cleanCode x := by
    apply repEsc_id
    intro c u h
    unfold escTbl1 at h
    split at h
    · subst_eqs
      exact p3dq
    · cases h
  have f2 : repEsc escTbl2 (cleanCode x) = cleanCode x := by
    apply repEsc_id
    intro c u h
    unfold escTbl2 at h
    split at h
    · subst_eqs
      exact p3sq
    · cases h
  have f3 : repEsc escTbl3 (cleanCode x) = cleanCode x := by
    apply repEsc_id
    intro c u h
    have hd : escTbl3 c ≠ none := by
      rw [h]
      simp
    exact p3 c hd
  show repEsc escTbl3 (repEsc escTbl2 (repEsc escTbl1 (cleanCode x))) = cleanCode x
  rw [f1, f2, f3]

theorem trimR_nil_of_ws (w : List Char) (h : ∀ c ∈ w, wsChar c = true) : trimR w = [] := by
  induction w with
  | nil => rfl
  | cons c r ih =>
    simp [trimR, ih (fun x hx => h x (List.mem_cons_of_mem c hx)),
      h c (List.mem_cons_self c r)]

theorem trimR_append_ws (l w : List Char) (h : ∀ c ∈ w, wsChar c = true) :
    trimR (l ++ w) = trimR l := by
  induction l with
  | nil => simpa using trimR_nil_of_ws w h
  | cons c l' ih => simp only [List.cons_append, trimR, List.append_eq, ih]

theorem trim_cons_ws (c : Char) (s : List Char) (hc : wsChar c = true) :
    trimStr (c :: s) = trimStr s := by
  unfold trimStr
  cases h : trimR s with
  | nil => simp [trimR, h, hc]
  | cons b bs => simp [trimR, h, hc, trimL]

theorem trim_ws_left (w l : List Char) (h : ∀ c ∈ w, wsChar c = true) :
    trimStr (w ++ l) = trimStr l := by
  induction w with
  | nil => rfl
  | cons c w' ih =>
    rw [List.cons_append, trim_cons_ws c _ (h c (List.mem_cons_self c w')),
      ih (fun x hx => h x (List.mem_cons_of_mem c hx))]

theorem trim_pad (w1 w2 l : List Char) (h1 : ∀ c ∈ w1, wsChar c = true)
    (h2 : ∀ c ∈ w2, wsChar c = true) : trimStr (w1 ++ l ++ w2) = trimStr l := by
  rw [List.append_assoc, trim_ws_left w1 _ h1]
  unfold trimStr
  rw [trimR_append_ws l w2 h2]

theorem trim_nil_of_ws (b : List Char) (h : ∀ c ∈ b, wsChar c = true) : trimStr b = [] := by
  unfold trimStr
  rw [trimR_nil_of_ws b h]
  rfl

theorem edgeWS_ws (w : List Char) (h : edgeWS w = true) : ∀ c ∈ w, wsChar c = true := by
  simp only [edgeWS, List.all_eq_true, Bool.and_eq_true] at h
  exact fun c hc => (h c hc).1

theorem edgeWS_noNL (w : List Char) (h : edgeWS w = true) : noNL w = true := by
  simp only [edgeWS, List.all_eq_true, Bool.and_eq_true] at h
  simp only [noNL, List.all_eq_true]
  exact fun c hc => (h c hc).2

theorem splitNL_noNL (l : List Char) (h : noNL l = true) : splitNL l = [l] := by
  induction l with
  | nil => rfl
  | cons c r ih =>
    simp only [noNL, List.all_cons, Bool.and_eq_true] at h
    have hc : ¬ c = '\n' := by simpa using h.1
    have hr : noNL r = true := by simpa [noNL] using h.2
    simp [splitNL, hc, ih hr]

theorem splitNL_append (l s : List Char) (h : noNL l = true) :
    splitNL (l ++ '\n' :: s) = l :: splitNL s := by
  induction l with
  | nil => simp [splitNL]
  | cons c r ih =>
    simp only [noNL, List.all_cons, Bool.and_eq_true] at h
    have hc : ¬ c = '\n' := by simpa using h.1
    have hr : noNL r = true := by simpa [noNL] using h.2
    simp [splitNL, hc, ih hr]

theorem splitNL_joinNL (L : List (List Char)) (hne : L ≠ [])
    (h : ∀ l ∈ L, noNL l = true) : splitNL (joinNL L) = L := by
  induction L with
  | nil => cases hne rfl
  | cons l L' ih =>
    cases L' with
    | nil => simpa using splitNL_noNL l (h l (by simp))
    | cons m L'' =>
      have hj : joinNL (l :: m :: L'') = l ++ '\n' :: joinNL (m :: L'') := rfl
      rw [hj, splitNL_append _ _ (h l (by simp)),
        ih (by simp) (fun x hx => h x (by simp [hx]))]

theorem lineNorm_joinNL (L : List (List Char)) (h : ∀ l ∈ L, noNL l = true) :
    lineNorm (joinNL L) = joinNL (normL L) := by
  cases L with
  | nil => rfl
  | cons l L' =>
    unfold lineNorm normL
    rw [splitNL_joinNL (l :: L') (by simp) h]

theorem noNL_append (a b : List Char) (ha : noNL a = true) (hb : noNL b = true) :
    noNL (a ++ b) = true := by
  simp only [noNL, List.all_append, Bool.and_eq_true]
  exact ⟨ha, hb⟩

theorem PadRel_noNL (L M : List (List Char)) (h : PadRel L M)
    (hL : ∀ l ∈ L, noNL l = true) : ∀ m ∈ M, noNL m = true := by
  induction h with
  | nil => simp
  | pad w1 w2 l L' M' hw1 hw2 hp ih =>
    intro m hm
    rcases List.mem_cons.mp hm with rfl | hm2
    · exact noNL_append _ _ (noNL_append _ _ (edgeWS_noNL w1 hw1) (hL l (by simp)))
        (edgeWS_noNL w2 hw2)
    · exact ih (fun x hx => hL x (List.mem_cons_of_mem l hx)) m hm2
  | blank b L' M' hb hp ih =>
    intro m hm
    rcases List.mem_cons.mp hm with rfl | hm2
    · exact edgeWS_noNL m hb
    · exact ih hL m hm2

theorem PadRel_normL (L M : List (List Char)) (h : PadRel L M) : normL M = normL L := by
  induction h with
  | nil => rfl
  | pad w1 w2 l L' M' hw1 hw2 hp ih =>
    unfold normL at ih ⊢
    simp only [List.map_cons, List.filter_cons]
    rw [trim_pad w1 w2 l (edgeWS_ws w1 hw1) (edgeWS_ws w2 hw2), ih]
  | blank b L' M' hb hp ih =>
    unfold normL at ih ⊢
    simp only [List.map_cons, List.filter_cons]
    rw [trim_nil_of_ws b (edgeWS_ws b hb)]
    simpa using ih

theorem foldl_accum_deltas (l : List (List Char)) (a : List Char) :
    List.foldl accumStep a (l.map SEvent.delta) = a ++ l.flatten := by
  induction l generalizing a with
  | nil => simp
  | cons t ts ih => simp [accumStep, ih, List.append_assoc]

theorem countP_deltas (p : SEvent → Bool) (hp : ∀ t, p (SEvent.delta t) = false)
    (l : List (List Char)) : (l.map SEvent.delta).countP p = 0 := by
  induction l with
  | nil => rfl
  | cons t ts ih => simp [List.countP_cons, hp, ih]

theorem clientFinish_applied (t : List Char) (h : (parseClaudeOutput t).success = true) :
    clientFinish t = ClientOutcome.applied ((parseClaudeOutput t).code.getD []) := by
  unfold clientFinish
  have hne : ¬ (trimStr t).isEmpty = true := by
    intro he
    unfold parseClaudeOutput at h
    rw [if_pos he] at h
    cases h
  rw [if_neg hne]
  dsimp only
  have hcode := (parse_fields t).1
  rw [h] at hcode
  cases hc : (parseClaudeOutput t).code with
  | none => rw [hc] at hcode; cases hcode
  | some c => simp [h]

theorem clientFinish_failed (t : List Char) (h : (parseClaudeOutput t).success = false) :
    ∃ m, clientFinish t = ClientOutcome.failed m := by
  unfold clientFinish
  by_cases he : (trimStr t).isEmpty = true
  · rw [if_pos he]
    exact ⟨_, rfl⟩
  · rw [if_neg he]
    dsimp only
    have hcode := (parse_fields t).1
    rw [h] at hcode
    cases hc : (parseClaudeOutput t).code with
    | some c => rw [hc] at hcode; cases hcode
    | none => exact ⟨_, rfl⟩

/-! ## Claim theorems -/

/-- C6: on every terminating path of `parseClaudeOutput`, exactly one of the
    `code` and `error` fields of the returned `ParseResult` is non-null:
    `code` is populated exactly when `success` is true, and `error` exactly
    when `success` is false. -/
theorem parseResult_code_error_exclusive (r : List Char) :
    ((parseClaudeOutput r).code.isSome = (parseClaudeOutput r).success) ∧
    ((parseClaudeOutput r).error.isSome = !(parseClaudeOutput r).success) :=
  parse_fields r

/-- C3: `validateStrudelCode` is a pure function that runs all ten rule checks
    unconditionally: its issue list is exactly the ordered concatenation of the
    per-rule issue lists (voice count, line budget and minimum, tempo, forbidden
    samples, randomness budget, extreme effects, syntax balance, invalid method
    usage, effect density, dangerous patterns) — so when several independent
    checks fail at once all of their issues appear together — and `valid` holds
    exactly when the aggregate list is empty. -/
theorem validateStrudelCode_runs_all_rules (code : List Char) (ovr : ConfigOverride) :
    ((validateStrudelCode code ovr).issues =
      voiceIssues code (mergeConfig ovr) ++ lineBudgetIssues code (mergeConfig ovr) ++
      tempoIssues code (mergeConfig ovr) ++ sampleIssues code (mergeConfig ovr) ++
      randomIssues code (mergeConfig ovr) ++ extremeIssues code (mergeConfig ovr) ++
      syntaxIssues code ++ findInvalidMethodUsage code ++
      densityIssues code (mergeConfig ovr) ++ dangerIssues code) ∧
    (validateStrudelCode code ovr).valid = (validateStrudelCode code ovr).issues.isEmpty :=
  ⟨issues_decomp code ovr, rfl⟩

/-- C7: the randomness budget is the sum of raw random-value calls
    (`rand`/`irand`), `perlin` references, and the fixed probability-transform
    set; a randomness issue is reported exactly when this sum exceeds the
    policy's `maxRandomUsage`, and the issue cites count over max: nine
    operations against the default max of 15 produce no randomness issue, while
    sixteen are rejected with an issue containing "16/15". -/
theorem randomness_budget_rule (code : List Char) (ovr : ConfigOverride) :
    countRandomUsage code = countRand code + countPerlin code + countProb code ∧
    ((validateStrudelCode code ovr).issues.any
        (fun m => ("excessive randomness (".data).isPrefixOf m) =
      decide ((mergeConfig ovr).maxRandomUsage < countRandomUsage code)) ∧
    countRandomUsage nineRandCode = 9 ∧
    ((validateStrudelCode nineRandCode noOverride).issues.any
        (fun m => ("excessive randomness (".data).isPrefixOf m) = false) ∧
    countRandomUsage sixteenRandCode = 16 ∧
    (validateStrudelCode sixteenRandCode noOverride).valid = false ∧
    ((validateStrudelCode sixteenRandCode noOverride).issues.any
        (fun m => containsSub ("16/15".data) m) = true) := by
  refine ⟨rfl, ?_, by decide, by decide, by decide, by decide, by decide⟩
  rw [any_issues_or]
  have hv : ∀ n m, ("excessive randomness (".data).isPrefixOf (msgVoices n m) = false := by
    intro n m
    unfold msgVoices
    simp only [List.append_assoc]
    exact not_pfx_append _ _ _ (by decide) (by decide)
  have hl : ∀ n m, ("excessive randomness (".data).isPrefixOf (msgLines n m) = false := by
    intro n m
    unfold msgLines
    simp only [List.append_assoc]
    exact not_pfx_append _ _ _ (by decide) (by decide)
  have he : ∀ c, ("excessive randomness (".data).isPrefixOf (msgExtreme c) = false := by
    intro c
    unfold msgExtreme
    simp only [List.append_assoc]
    exact not_pfx_append _ _ _ (by decide) (by decide)
  have hsy1 : ∀ o c, ("excessive randomness (".data).isPrefixOf (synParenMsg o c) = false := by
    intro o c
    unfold synParenMsg
    simp only [List.append_assoc]
    exact not_pfx_append _ _ _ (by decide) (by decide)
  have hsy2 : ∀ o c, ("excessive randomness (".data).isPrefixOf (synBracketMsg o c) = false := by
    intro o c
    unfold synBracketMsg
    simp only [List.append_assoc]
    exact not_pfx_append _ _ _ (by decide) (by decide)
  have hsy3 : ∀ o c, ("excessive randomness (".data).isPrefixOf (synBraceMsg o c) = false := by
    intro o c
    unfold synBraceMsg
    simp only [List.append_assoc]
    exact not_pfx_append _ _ _ (by decide) (by decide)
  have hsy4 : ∀ o c, ("excessive randomness (".data).isPrefixOf (synMiniMsg o c) = false := by
    intro o c
    unfold synMiniMsg
    simp only [List.append_assoc]
    exact not_pfx_append _ _ _ (by decide) (by decide)
  have hd : ∀ n, ("excessive randomness (".data).isPrefixOf (msgDensity n) = false := by
    intro n
    unfold msgDensity
    simp only [List.append_assoc]
    exact not_pfx_append _ _ _ (by decide) (by decide)
  have hr : ∀ n m, ("excessive randomness (".data).isPrefixOf (msgRandom n m) = true := by
    intro n m
    unfold msgRandom
    simp only [List.append_assoc]
    exact pfx_append_self _ _
  rw [any_voice _ _ _ hv, any_lineBudget _ _ _ hl (by decide), any_tempo _ _ _ (by decide),
    any_sample _ _ _ (by decide), any_random_eq _ _ _ hr, any_extreme _ _ _ he,
    any_syntax_false _ _ hsy1 hsy2 hsy3 hsy4,
    any_methods _ _ (by decide) (by decide) (by decide) (by decide),
    any_density _ _ _ hd, any_danger _ _ (by decide) (by decide)]
  simp

/-- C8: under the default policy (no caller overrides, room ceiling 0.95), an
    artifact with `.room(0.95)` produces no extreme-effect issue, while the
    otherwise identical artifact with `.room(0.96)` is rejected with the
    extreme-effect issue. -/
theorem room_boundary_default_policy :
    mergeConfig noOverride = DEFAULT_CONFIG ∧
    DEFAULT_CONFIG.maxRoomSize = mkRat 19 20 ∧
    hasExtremeEffects room095Code (mergeConfig noOverride) = false ∧
    ((validateStrudelCode room095Code noOverride).issues.any
        (fun m => ("extreme effect values detected".data).isPrefixOf m) = false) ∧
    (validateStrudelCode room096Code noOverride).valid = false ∧
    ((validateStrudelCode room096Code noOverride).issues.any
        (fun m => ("extreme effect values detected".data).isPrefixOf m) = true) :=
  ⟨rfl, rfl, by decide, by decide, by decide, by decide⟩

/-- C4 counterexample: the normalizer is not idempotent — on the input
    backslash-backslash-quote the first pass leaves a backslash-quote pair
    which a second pass rewrites again. -/
theorem cleanCode_not_idempotent :
    cleanCode escCx = ['\\', dquote] ∧ cleanCode (cleanCode escCx) = [dquote] ∧
    cleanCode (cleanCode escCx) ≠ cleanCode escCx :=
  ⟨by decide, by decide, by decide⟩

/-- C4 (amended): `cleanCode` is idempotent on every string with no two
    adjacent backslashes (the counterexample requires an adjacent
    backslash pair). -/
theorem cleanCode_idempotent_sep (x : List Char) (h : hasPair '\\' '\\' x = false) :
    cleanCode (cleanCode x) = cleanCode x :=
  cleanCode_fix_of_sep x h

/-- C4 witness: the amended idempotence applied to a concrete escaped input. -/
theorem cleanCode_idempotent_sep_witness :
    hasPair '\\' '\\' escOk = false ∧ cleanCode (cleanCode escOk) = cleanCode escOk :=
  ⟨by decide, cleanCode_idempotent_sep escOk (by decide)⟩

/-- C10: the code-unchanged comparison is reflexive, symmetric, and insensitive
    to blank lines and per-line edge whitespace: replacing either argument by a
    padded variant (leading/trailing intra-line whitespace added to lines,
    whitespace-only lines inserted or removed) never changes its result against
    any other string. -/
theorem isCodeUnchanged_props :
    (∀ x, isCodeUnchanged x x = true) ∧
    (∀ x y, isCodeUnchanged x y = isCodeUnchanged y x) ∧
    (∀ L M z, PadRel L M → (∀ l ∈ L, noNL l = true) →
      isCodeUnchanged (joinNL M) z = isCodeUnchanged (joinNL L) z ∧
      isCodeUnchanged z (joinNL M) = isCodeUnchanged z (joinNL L)) := by
  refine ⟨?_, ?_, ?_⟩
  · intro x
    simp [isCodeUnchanged]
  · intro x y
    exact decide_eq_decide.mpr eq_comm
  · intro L M z hrel hL
    have hM := PadRel_noNL L M hrel hL
    have e : lineNorm (joinNL M) = lineNorm (joinNL L) := by
      rw [lineNorm_joinNL M hM, lineNorm_joinNL L hL, PadRel_normL L M hrel]
    constructor
    · unfold isCodeUnchanged
      rw [e]
    · unfold isCodeUnchanged
      rw [e]

/-- C10 witness: the padding-insensitivity applied at a concrete pair of line
    lists and a concrete other argument. -/
theorem isCodeUnchanged_props_witness :
    PadRel plainLines paddedLines ∧ (∀ l ∈ plainLines, noNL l = true) ∧
    (isCodeUnchanged (joinNL paddedLines) (("a b\nc".data)) =
        isCodeUnchanged (joinNL plainLines) (("a b\nc".data)) ∧
      isCodeUnchanged (("a b\nc".data)) (joinNL paddedLines) =
        isCodeUnchanged (("a b\nc".data)) (joinNL plainLines)) := by
  have base : PadRel [("c".data)] [(" ".data), ("c".data)] := by
    have h0 : PadRel [("c".data)] [([] ++ ("c".data) ++ [])] :=
      PadRel.pad [] [] _ _ _ (by decide) (by decide) PadRel.nil
    exact PadRel.blank (" ".data) _ _ (by decide) (by simpa using h0)
  have step : PadRel plainLines ((("  ".data) ++ ("a b".data) ++ (" ".data)) ::
      [(" ".data), ("c".data)]) :=
    PadRel.pad _ _ _ _ _ (by decide) (by decide) base
  have heq : (("  ".data) ++ ("a b".data) ++ (" ".data)) = ("  a b ".data) := by decide
  rw [heq] at step
  exact ⟨step, by decide, isCodeUnchanged_props.2.2 plainLines paddedLines _ step (by decide)⟩

/-- C9 counterexample: `angleCx` contains an individually quoted literal with
    unequal `<`/`>` counts, yet validation does not report the
    unbalanced-mini-notation issue (the earlier parenthesis-balance check fires
    first inside the syntax rule and suppresses it). -/
theorem angle_check_counterexample :
    (∃ lit ∈ stringContents angleCx, countChar '<' lit ≠ countChar '>' lit) ∧
    ((validateStrudelCode angleCx noOverride).issues.any
        (fun m => ("unbalanced mini-notation: ".data).isPrefixOf m) = false) := by
  exact ⟨by decide, by decide⟩

/-- C9 (amended): the angle-bracket balance check is scoped to quoted literals:
    when every individually quoted literal has equal `<`/`>` counts the
    unbalanced-mini-notation issue is never reported (however unbalanced the
    text outside literals is); and when the parentheses, square brackets and
    curly braces are balanced, an input containing an individually quoted
    literal with unequal counts is reported with that issue. -/
theorem angle_balance_scoped (code : List Char) (ovr : ConfigOverride) :
    ((∀ lit ∈ stringContents code, countChar '<' lit = countChar '>' lit) →
      (validateStrudelCode code ovr).issues.any
        (fun m => ("unbalanced mini-notation: ".data).isPrefixOf m) = false) ∧
    (countChar '(' code = countChar ')' code →
      countChar '[' code = countChar ']' code →
      countChar lbrace code = countChar rbrace code →
      (∃ lit ∈ stringContents code, countChar '<' lit ≠ countChar '>' lit) →
      (validateStrudelCode code ovr).issues.any
        (fun m => ("unbalanced mini-notation: ".data).isPrefixOf m) = true) := by
  have hv : ∀ n m, ("unbalanced mini-notation: ".data).isPrefixOf (msgVoices n m) = false := by
    intro n m
    unfold msgVoices
    simp only [List.append_assoc]
    exact not_pfx_append _ _ _ (by decide) (by decide)
  have hl : ∀ n m, ("unbalanced mini-notation: ".data).isPrefixOf (msgLines n m) = false := by
    intro n m
    unfold msgLines
    simp only [List.append_assoc]
    exact not_pfx_append _ _ _ (by decide) (by decide)
  have hr : ∀ n m, ("unbalanced mini-notation: ".data).isPrefixOf (msgRandom n m) = false := by
    intro n m
    unfold msgRandom
    simp only [List.append_assoc]
    exact not_pfx_append _ _ _ (by decide) (by decide)
  have he : ∀ c, ("unbalanced mini-notation: ".data).isPrefixOf (msgExtreme c) = false := by
    intro c
    unfold msgExtreme
    simp only [List.append_assoc]
    exact not_pfx_append _ _ _ (by decide) (by decide)
  have hsy1 : ∀ o c, ("unbalanced mini-notation: ".data).isPrefixOf (synParenMsg o c) = false := by
    intro o c
    unfold synParenMsg
    simp only [List.append_assoc]
    exact not_pfx_append _ _ _ (by decide) (by decide)
  have hsy2 : ∀ o c, ("unbalanced mini-notation: ".data).isPrefixOf (synBracketMsg o c) = false := by
    intro o c
    unfold synBracketMsg
    simp only [List.append_assoc]
    exact not_pfx_append _ _ _ (by decide) (by decide)
  have hsy3 : ∀ o c, ("unbalanced mini-notation: ".data).isPrefixOf (synBraceMsg o c) = false := by
    intro o c
    unfold synBraceMsg
    simp only [List.append_assoc]
    exact not_pfx_append _ _ _ (by decide) (by decide)
  have hsy4 : ∀ o c, ("unbalanced mini-notation: ".data).isPrefixOf (synMiniMsg o c) = true := by
    intro o c
    unfold synMiniMsg
    simp only [List.append_assoc]
    exact pfx_append_self _ _
  have hd : ∀ n, ("unbalanced mini-notation: ".data).isPrefixOf (msgDensity n) = false := by
    intro n
    unfold msgDensity
    simp only [List.append_assoc]
    exact not_pfx_append _ _ _ (by decide) (by decide)
  constructor
  · intro hbal
    rw [any_issues_or]
    rw [any_voice _ _ _ hv, any_lineBudget _ _ _ hl (by decide), any_tempo _ _ _ (by decide),
      any_sample _ _ _ (by decide), any_random_false _ _ _ hr, any_extreme _ _ _ he,
      syntax_any_of_balanced_lits _ _ (firstUnbalancedLit_none _ hbal) hsy1 hsy2 hsy3,
      any_methods _ _ (by decide) (by decide) (by decide) (by decide),
      any_density _ _ _ hd, any_danger _ _ (by decide) (by decide)]
    rfl
  · intro hp hb hc hlit
    rw [any_issues_or]
    rw [syntax_any_of_unbalanced_lit _ _ hp hb hc hlit hsy4]
    simp

/-- C9 witness: the amended theorem applied at concrete inputs — `angleOutside`
    has its only `<` outside any literal and is not reported; `angleInLit` has
    balanced delimiters and an unbalanced quoted literal and is reported. -/
theorem angle_balance_scoped_witness :
    ((∀ lit ∈ stringContents angleOutside, countChar '<' lit = countChar '>' lit) ∧
      (validateStrudelCode angleOutside noOverride).issues.any
        (fun m => ("unbalanced mini-notation: ".data).isPrefixOf m) = false) ∧
    ((countChar '(' angleInLit = countChar ')' angleInLit) ∧
      (∃ lit ∈ stringContents angleInLit, countChar '<' lit ≠ countChar '>' lit) ∧
      (validateStrudelCode angleInLit noOverride).issues.any
        (fun m => ("unbalanced mini-notation: ".data).isPrefixOf m) = true) :=
  ⟨⟨by decide, (angle_balance_scoped angleOutside noOverride).1 (by decide)⟩,
   ⟨by decide, by decide,
    (angle_balance_scoped angleInLit noOverride).2 (by decide) (by decide) (by decide)
      (by decide)⟩⟩

/-- C5: `parseClaudeOutput` performs this case analysis on fenced-block count
    over the trimmed response: zero blocks with at least two heuristic markers
    → the trimmed text is treated as the artifact (content-validated and
    cleaned like any artifact); zero blocks otherwise → failure "no code block
    found in response"; more than one block → failure naming the exact count;
    exactly one block whose body trims to empty → failure "code block is
    empty". -/
theorem parse_fence_case_analysis (r : List Char) (hne : ¬ trimStr r = []) :
    (findBlocks (trimStr r) = [] → looksLikeStrudelCode (trimStr r) = true →
      parseClaudeOutput r = finishArtifact r (trimStr r)) ∧
    (findBlocks (trimStr r) = [] → looksLikeStrudelCode (trimStr r) = false →
      parseClaudeOutput r = mkFail ("no code block found in response".data) r) ∧
    (1 < (findBlocks (trimStr r)).length →
      parseClaudeOutput r =
        mkFail (("found ".data) ++ natStr (findBlocks (trimStr r)).length ++
          (" code blocks, expected exactly 1".data)) r) ∧
    (∀ b, findBlocks (trimStr r) = [b] → trimStr b = [] →
      parseClaudeOutput r = mkFail ("code block is empty".data) r) := by
  unfold parseClaudeOutput
  rw [if_neg (by simpa [List.isEmpty_iff] using hne)]
  refine ⟨?_, ?_, ?_, ?_⟩
  · intro h0 hl
    rw [if_pos (by rw [h0]; rfl), if_pos hl]
  · intro h0 hl
    rw [if_pos (by rw [h0]; rfl), if_neg (by simp [hl])]
  · intro hgt
    have h0 : ¬ (findBlocks (trimStr r)).length = 0 := by omega
    rw [if_neg h0, if_pos hgt]
  · intro b hb hbe
    have h0 : ¬ (findBlocks (trimStr r)).length = 0 := by rw [hb]; simp
    have h1 : ¬ (findBlocks (trimStr r)).length > 1 := by rw [hb]; simp
    rw [if_neg h0, if_neg h1]
    dsimp only
    rw [hb]
    rw [if_pos (by simp [hbe])]

/-- C5 witness: the case analysis applied at four concrete responses — a
    heuristic unfenced artifact, prose, a two-block response and an
    empty-block response. -/
theorem parse_fence_case_analysis_witness :
    parseClaudeOutput heuristicText = finishArtifact heuristicText (trimStr heuristicText) ∧
    parseClaudeOutput proseText = mkFail ("no code block found in response".data) proseText ∧
    parseClaudeOutput twoBlockText =
      mkFail (("found ".data) ++ natStr (findBlocks (trimStr twoBlockText)).length ++
        (" code blocks, expected exactly 1".data)) twoBlockText ∧
    parseClaudeOutput emptyBlockText = mkFail ("code block is empty".data) emptyBlockText :=
  ⟨(parse_fence_case_analysis heuristicText (by decide)).1 (by decide) (by decide),
   (parse_fence_case_analysis proseText (by decide)).2.1 (by decide) (by decide),
   (parse_fence_case_analysis twoBlockText (by decide)).2.2.1 (by decide),
   (parse_fence_case_analysis emptyBlockText (by decide)).2.2.2 (("\n".data)) (by decide)
     (by decide)⟩

/-- C1: when the first attempt's extracted artifact fails validation, the
    orchestrator emits exactly one status and exactly one clear event, runs the
    validator exactly once in the whole request (the second completion is never
    validated), starts exactly two generation attempts (never a third), and the
    client's accumulated text after the stream is exactly the second
    completion, which the client applies whenever its parser extracts it —
    regardless of the second completion's content. -/
theorem retry_streams_second_completion (chunks1 chunks2 : List (List Char)) (c : List Char)
    (hx : extractCodeForValidation chunks1.flatten = some c)
    (hv : (validateStrudelCode c routeOverride).valid = false) :
    (runGeneration chunks1 chunks2).events.countP isStatus = 1 ∧
    (runGeneration chunks1 chunks2).events.countP isClear = 1 ∧
    (runGeneration chunks1 chunks2).validatorCalls = 1 ∧
    (runGeneration chunks1 chunks2).attemptsStarted = 2 ∧
    clientAccum (runGeneration chunks1 chunks2).events = chunks2.flatten ∧
    ((parseClaudeOutput chunks2.flatten).success = true →
      clientFinish (clientAccum (runGeneration chunks1 chunks2).events) =
        ClientOutcome.applied ((parseClaudeOutput chunks2.flatten).code.getD [])) := by
  have hrun : runGeneration chunks1 chunks2 =
      { events := chunks1.map SEvent.delta ++
          [SEvent.status ("simplifying...".data), SEvent.clear] ++
          chunks2.map SEvent.delta ++ [SEvent.done],
        validatorCalls := 1, attemptsStarted := 2 } := by
    simp only [runGeneration, hx]
    rw [if_neg (by simp [hv])]
  have hacc : clientAccum (runGeneration chunks1 chunks2).events = chunks2.flatten := by
    rw [hrun]
    unfold clientAccum
    simp only [List.foldl_append, foldl_accum_deltas, List.foldl_cons, List.foldl_nil]
    rfl
  refine ⟨?_, ?_, by rw [hrun], by rw [hrun], hacc, ?_⟩
  · rw [hrun]
    simp [List.countP_append, List.countP_cons,
      countP_deltas isStatus (fun t => rfl), isStatus, isClear]
  · rw [hrun]
    simp [List.countP_append, List.countP_cons,
      countP_deltas isClear (fun t => rfl), isStatus, isClear]
  · intro hp
    rw [hacc]
    exact clientFinish_applied _ hp

/-- C1 witness: a first completion with one over-30-character fenced block that
    fails validation, and a second completion "ok". -/
theorem retry_streams_second_completion_witness :
    extractCodeForValidation ([retryChunk].flatten) = some retryCode ∧
    (validateStrudelCode retryCode routeOverride).valid = false ∧
    ((runGeneration [retryChunk] [("ok".data)]).events.countP isStatus = 1 ∧
     (runGeneration [retryChunk] [("ok".data)]).events.countP isClear = 1 ∧
     (runGeneration [retryChunk] [("ok".data)]).validatorCalls = 1 ∧
     (runGeneration [retryChunk] [("ok".data)]).attemptsStarted = 2 ∧
     clientAccum (runGeneration [retryChunk] [("ok".data)]).events = [("ok".data)].flatten ∧
     ((parseClaudeOutput ([("ok".data)].flatten)).success = true →
       clientFinish (clientAccum (runGeneration [retryChunk] [("ok".data)]).events) =
         ClientOutcome.applied ((parseClaudeOutput ([("ok".data)].flatten)).code.getD []))) :=
  ⟨by decide, by decide,
   retry_streams_second_completion [retryChunk] [("ok".data)] retryCode (by decide) (by decide)⟩

/-- C2 counterexample: on a first completion whose only fenced block is 30
    characters or shorter, the orchestrator extracts nothing and attempts no
    retry — but no terminal error surfaces to the caller: the client's own
    parser accepts the accumulated text and applies the code. -/
theorem extraction_failure_counterexample :
    extractCodeForValidation ([extractCx].flatten) = none ∧
    (runGeneration [extractCx] []).attemptsStarted = 1 ∧
    (runGeneration [extractCx] []).validatorCalls = 0 ∧
    clientAccum (runGeneration [extractCx] []).events = extractCx ∧
    clientFinish extractCx = ClientOutcome.applied extractCxCode :=
  ⟨by decide, by decide, by decide, by decide, by decide⟩

/-- C2 (amended): when the first attempt's accumulated text yields no
    extractable artifact, the orchestrator attempts no retry (no second stream,
    no validation, no status or clear event) and forwards the accumulated text
    unchanged; the failure surfaces as a terminal error to the caller exactly
    when the caller's own, more permissive parser also fails on that text
    (unfenced heuristic matches and short single blocks can still be accepted
    client-side). -/
theorem no_retry_on_extraction_failure (chunks1 chunks2 : List (List Char))
    (hx : extractCodeForValidation chunks1.flatten = none) :
    (runGeneration chunks1 chunks2).attemptsStarted = 1 ∧
    (runGeneration chunks1 chunks2).validatorCalls = 0 ∧
    (runGeneration chunks1 chunks2).events.countP isStatus = 0 ∧
    (runGeneration chunks1 chunks2).events.countP isClear = 0 ∧
    clientAccum (runGeneration chunks1 chunks2).events = chunks1.flatten ∧
    ((parseClaudeOutput chunks1.flatten).success = false →
      ∃ m, clientFinish (clientAccum (runGeneration chunks1 chunks2).events) =
        ClientOutcome.failed m) := by
  have hrun : runGeneration chunks1 chunks2 =
      { events := chunks1.map SEvent.delta ++ [SEvent.done],
        validatorCalls := 0, attemptsStarted := 1 } := by
    simp only [runGeneration, hx]
  have hacc : clientAccum (runGeneration chunks1 chunks2).events = chunks1.flatten := by
    rw [hrun]
    unfold clientAccum
    simp only [List.foldl_append, foldl_accum_deltas, List.foldl_cons, List.foldl_nil]
    rfl
  refine ⟨by rw [hrun], by rw [hrun], ?_, ?_, hacc, ?_⟩
  · rw [hrun]
    simp [List.countP_append, List.countP_cons,
      countP_deltas isStatus (fun t => rfl), isStatus]
  · rw [hrun]
    simp [List.countP_append, List.countP_cons,
      countP_deltas isClear (fun t => rfl), isClear]
  · intro hp
    rw [hacc]
    exact clientFinish_failed _ hp

/-- C2 witness: the amended theorem applied at a concrete prose completion the
    client parser also rejects. -/
theorem no_retry_on_extraction_failure_witness :
    extractCodeForValidation ([proseText].flatten) = none ∧
    (parseClaudeOutput ([proseText].flatten)).success = false ∧
    ((runGeneration [proseText] []).attemptsStarted = 1 ∧
     (runGeneration [proseText] []).validatorCalls = 0 ∧
     (runGeneration [proseText] []).events.countP isStatus = 0 ∧
     (runGeneration [proseText] []).events.countP isClear = 0 ∧
     clientAccum (runGeneration [proseText] []).events = [proseText].flatten ∧
     ((parseClaudeOutput ([proseText].flatten)).success = false →
       ∃ m, clientFinish (clientAccum (runGeneration [proseText] []).events) =
         ClientOutcome.failed m)) :=
  ⟨by decide, by decide, no_retry_on_extraction_failure [proseText] [] (by decide)⟩

end Audial
